import Mathlib

/-!
Shallow embedding of the `TM` task-manager repository
(`src/TaskManager/TaskManager.py`, `task.py`, `priority.py`, `libs.py`).

Python exceptions are modelled by the `PyError` type; mutating methods
return the post-state together with an optional raised error, so that a
raise that happens after a partial mutation is observable.  The queue
attribute is either a bounded `collections.deque` (as built by the
constructor) or a plain Python list (as rebuilt by `kill_task` /
`kill_by_group`); the two representations behave differently under
`popleft`, which the code relies on.
-/

namespace TM

/-- `Priority` enumeration from `priority.py`: `low = auto() -- 1`,
`medium = auto() -- 2`, `high = auto() -- 3`; `__lt__` compares `value`. -/
inductive Priority : Type
  | low
  | medium
  | high
deriving DecidableEq, Repr

/-- The integer backing each enum member (`auto()` numbering). -/
def Priority.value : Priority → Nat
  | .low => 1
  | .medium => 2
  | .high => 3

/-- The `.name` attribute of the enum member, used by `kill_by_group`. -/
def Priority.pname : Priority → String
  | .low => "low"
  | .medium => "medium"
  | .high => "high"

/-- `min(Priority).value`: the members compare by `value`, so the minimum
member is `low` and its value is `1`. -/
def Priority.minValue : Nat := Priority.low.value

/-- `Task` from `task.py`: pid, priority and the liveness flag. -/
structure Task : Type where
  pid : String
  priority : Priority
  is_active : Bool
deriving DecidableEq, Repr

/-- The Python exceptions that the embedded code can raise.  The first four
are the classes declared in `libs.py`; the remaining ones are built-in
Python exceptions that the code can trigger indirectly. -/
inductive PyError : Type
  | maxTaskSize (msg : String)
  | duplicateTask (msg : String)
  | emptyTaskManager (msg : String)
  | inactiveTask (msg : String)
  | typeError (msg : String)
  | valueError (msg : String)
  | indexError (msg : String)
  | attributeError (msg : String)
  | exceptionError (msg : String)
deriving DecidableEq, Repr

/-- The value bound to `self.tasks_queue`: either a `collections.deque`
with a fixed `maxlen` (set by the constructor) or a plain list (the
comprehensions in `kill_task` / `kill_by_group` rebuild it as a list). -/
inductive PyQueue : Type
  | deque (maxlen : Nat) (elems : List Task)
  | pylist (elems : List Task)
deriving DecidableEq, Repr

/-- The elements currently held, left (oldest) to right (newest). -/
def PyQueue.elems : PyQueue → List Task
  | .deque _ l => l
  | .pylist l => l

/-- `append`: a bounded deque that is at `maxlen` silently discards from
the left; a list appends unboundedly. -/
def PyQueue.append (q : PyQueue) (t : Task) : PyQueue :=
  match q with
  | .pylist l => .pylist (l ++ [t])
  | .deque m l =>
    if l.length < m then .deque m (l ++ [t])
    else .deque m ((l ++ [t]).drop (l.length + 1 - m))

/-- `popleft`: a deque pops its oldest element (raising `IndexError` when
empty); a plain list has no such attribute, so Python raises
`AttributeError`. -/
def PyQueue.popleft : PyQueue → Except PyError PyQueue
  | .deque _ [] => .error (.indexError "pop from an empty deque")
  | .deque m (_ :: rest) => .ok (.deque m rest)
  | .pylist _ => .error (.attributeError "'list' object has no attribute 'popleft'")

/-- `del q[i]`: removes the element at index `i`, raising `IndexError`
when the index is out of range. -/
def PyQueue.delIdx (q : PyQueue) (i : Nat) : Except PyError PyQueue :=
  if i < q.elems.length then
    match q with
    | .deque m l => .ok (.deque m (l.eraseIdx i))
    | .pylist l => .ok (.pylist (l.eraseIdx i))
  else .error (.indexError "index out of range")

/-- `clear`: empties the container, preserving its representation. -/
def PyQueue.clear : PyQueue → PyQueue
  | .deque m _ => .deque m []
  | .pylist _ => .pylist []

/-- The dynamically-typed `max_queue_size` argument of the constructor:
the checks `max_queue_size == 0` and `type(max_queue_size) is int`
distinguish ints, floats and bools. -/
inductive PyVal : Type
  | vint (n : Int)
  | vfloat (q : Rat)
  | vbool (b : Bool)
deriving DecidableEq, Repr

/-- Python `x == 0` (note `0.0 == 0` and `False == 0` are both true). -/
def PyVal.eqZero : PyVal → Bool
  | .vint n => n == 0
  | .vfloat q => q == 0
  | .vbool b => b == false

/-- Python `type(x) is int` (false for `bool`, which is a subclass). -/
def PyVal.isIntType : PyVal → Bool
  | .vint _ => true
  | _ => false

/-- The `TaskManager` object state.  `max_queue_size` is an `Int` because
`set_max_queue_size` assigns whatever it is given, with no checks. -/
structure TaskManager : Type where
  max_queue_size : Int
  tasks_queue : PyQueue
  run_mode : String
  verbose : Bool
  duplicates_allowed : Bool
deriving DecidableEq, Repr

/-- The membership test of the constructor:
`run_mode in ("default", "fifo", "priority")`. -/
def validRunMode (r : String) : Bool :=
  r == "default" || r == "fifo" || r == "priority"

/-- `TaskManager.__init__`.  Checks run in source order: `== 0` first,
then the run-mode membership test, then `type(...) is int`; finally
`deque([], max_queue_size)` itself raises `ValueError` when the size is
negative. -/
def TaskManager.init (mqs : PyVal) (run_mode : String) (verbose : Bool)
    (duplicates_allowed : Bool) : Except PyError TaskManager :=
  if mqs.eqZero then
    .error (.emptyTaskManager "Empty task manager container is not permitted.")
  else if !(validRunMode run_mode) then
    .error (.exceptionError "'method' can only be in ('default', 'fifo', 'priority')")
  else
    match mqs with
    | .vint n =>
      if n < 0 then .error (.valueError "maxlen must be non-negative")
      else .ok { max_queue_size := n, tasks_queue := .deque n.toNat [],
                 run_mode := run_mode, verbose := verbose,
                 duplicates_allowed := duplicates_allowed }
    | _ => .error (.typeError "Only integers are allowed")

/-- `filled_size` property: `len(self.tasks_queue)`. -/
def TaskManager.filled_size (tm : TaskManager) : Nat :=
  tm.tasks_queue.elems.length

/-- `_check_if_task_not_exists`: returns truthy when duplicates are
allowed or the pid is fresh; raises `DuplicateTaskError` otherwise. -/
def TaskManager.check_if_task_not_exists (tm : TaskManager) (task : Task) :
    Except PyError Bool :=
  if tm.duplicates_allowed then .ok true
  else if (tm.tasks_queue.elems.map Task.pid).contains task.pid then
    .error (.duplicateTask "A job with given pid is already in queue.")
  else .ok true

/-- `set_max_queue_size`: plain assignment, no validation. -/
def TaskManager.set_max_queue_size (tm : TaskManager) (m : Int) : TaskManager :=
  { tm with max_queue_size := m }

/-- `set_run_method`: plain assignment, no validation. -/
def TaskManager.set_run_method (tm : TaskManager) (r : String) : TaskManager :=
  { tm with run_mode := r }

/-- `_add`: used below capacity; duplicate check, then append. -/
def TaskManager.add_plain (tm : TaskManager) (task : Task) :
    TaskManager × Option PyError :=
  match tm.check_if_task_not_exists task with
  | .error e => (tm, some e)
  | .ok _ => ({ tm with tasks_queue := tm.tasks_queue.append task }, none)

/-- `_add_fifo`: duplicate check first, then `popleft` and append. -/
def TaskManager.add_fifo (tm : TaskManager) (task : Task) :
    TaskManager × Option PyError :=
  match tm.check_if_task_not_exists task with
  | .error e => (tm, some e)
  | .ok _ =>
    match tm.tasks_queue.popleft with
    | .error e => (tm, some e)
    | .ok q => ({ tm with tasks_queue := q.append task }, none)

/-- The scan loop of `_add_priority_based`, state-passing form.  The state
is `none` while `index_to_remove == -1`, and `some (i, pl)` once a
candidate index `i` with recorded priority `pl` has been registered.  In
the `elif` branch the source assigns `current_low_priority` (a dead local)
instead of `previous_low_priority`, so `pl` is deliberately NOT updated
there.  The loop breaks the moment a candidate of globally minimal
priority is seen. -/
def scanFrom (p : Priority) : List Task → Nat → Option (Nat × Priority) → Option Nat
  | [], _, st => st.map (fun s => s.1)
  | t :: rest, k, st =>
    if t.priority.value < p.value then
      let st' : Option (Nat × Priority) :=
        match st with
        | none => some (k, t.priority)
        | some (i, pl) =>
          if t.priority.value < pl.value then some (k, pl) else some (i, pl)
      if t.priority.value = Priority.minValue then some k
      else scanFrom p rest (k + 1) st'
    else scanFrom p rest (k + 1) st

/-- `_add_priority_based`: skip when the incoming priority is the global
minimum; catch `DuplicateTaskError` silently; then scan, and either skip
(no candidate) or delete the candidate and append. -/
def TaskManager.add_priority_based (tm : TaskManager) (new_task : Task) :
    TaskManager × Option PyError :=
  if new_task.priority.value = Priority.minValue then (tm, none)
  else
    match tm.check_if_task_not_exists new_task with
    | .error (.duplicateTask _) => (tm, none)
    | .error e => (tm, some e)
    | .ok _ =>
      match scanFrom new_task.priority tm.tasks_queue.elems 0 none with
      | none => (tm, none)
      | some i =>
        match tm.tasks_queue.delIdx i with
        | .error e => (tm, some e)
        | .ok q => ({ tm with tasks_queue := q.append new_task }, none)

/-- `add`: the public entry point; liveness check, then dispatch on fill
state and run mode.  An unrecognized run mode on a full container falls
through all branches and does nothing. -/
def TaskManager.add (tm : TaskManager) (task : Task) :
    TaskManager × Option PyError :=
  if !task.is_active then
    (tm, some (.inactiveTask "Inactive jobs can not be added to task manager."))
  else if tm.max_queue_size ≤ (tm.filled_size : Int) then
    if tm.run_mode == "default" then
      (tm, some (.maxTaskSize "Task manager does not have free job slot."))
    else if tm.run_mode == "fifo" then tm.add_fifo task
    else if tm.run_mode == "priority" then tm.add_priority_based task
    else (tm, none)
  else tm.add_plain task

/-- `kill_task`: list comprehension — the queue is rebuilt as a list. -/
def TaskManager.kill_task (tm : TaskManager) (pid : String) : TaskManager :=
  { tm with tasks_queue := .pylist (tm.tasks_queue.elems.filter (fun e => e.pid != pid)) }

/-- `kill_by_group`: validates the group key, then rebuilds the queue as a
list via a comprehension filtering on priority name or pid prefix. -/
def TaskManager.kill_by_group (tm : TaskManager) (group : String) (mtch : String) :
    TaskManager × Option PyError :=
  if !(group == "priority" || group == "pid") then
    (tm, some (.valueError "'group can only be in ('priority' , 'pid')'"))
  else if group == "priority" then
    ({ tm with tasks_queue :=
        .pylist (tm.tasks_queue.elems.filter (fun e => e.priority.pname != mtch)) }, none)
  else
    ({ tm with tasks_queue :=
        .pylist (tm.tasks_queue.elems.filter (fun e => !(e.pid.startsWith mtch))) }, none)

/-- `kill_all_tasks`: marks every task dead (the objects are then dropped)
and clears the queue in place. -/
def TaskManager.kill_all_tasks (tm : TaskManager) : TaskManager :=
  { tm with tasks_queue := tm.tasks_queue.clear }

/-- Stable insertion: `a` is placed before the first element not strictly
below it, so among equal keys an element inserted later (i.e. one that was
EARLIER in the input, since sorting folds from the right) comes first. -/
def pyInsert (lt : Task → Task → Bool) (a : Task) : List Task → List Task
  | [] => [a]
  | b :: bs => if lt b a then b :: pyInsert lt a bs else a :: b :: bs

/-- A stable ascending sort.  CPython's `sorted` is a stable sort; any two
stable sorts agree on every input whose comparator is a strict weak order
(here: comparison of `Nat` or `String` keys), so this insertion sort is an
exact model of `sorted(xs, key=...)`. -/
def pySort (lt : Task → Task → Bool) : List Task → List Task
  | [] => []
  | a :: rest => pyInsert lt a (pySort lt rest)

/-- `sorted(xs, key=..., reverse=rev)`: CPython implements `reverse=True`
by reversing, sorting ascending (stably), and reversing back, which keeps
equal-key elements in their original order. -/
def pySorted (lt : Task → Task → Bool) (rev : Bool) (l : List Task) : List Task :=
  if rev then (pySort lt l.reverse).reverse else pySort lt l

/-- The comparator `lambda t: t.get_priority` induces on tasks
(`Priority.__lt__` compares `value`). -/
def ltPrio (a b : Task) : Bool := decide (a.priority.value < b.priority.value)

/-- The comparator `lambda t: t.get_pid` induces on tasks. -/
def ltPid (a b : Task) : Bool := decide (a.pid < b.pid)

/-- `list_running_tasks`: diagnostics (returning `None`) for a bad `by`
key or an empty queue, otherwise the queue in (reversed) insertion order
for "ctime" or a freshly sorted copy for "priority" / "pid". -/
def TaskManager.list_running_tasks (tm : TaskManager) (sortKey : String)
    (rev : Bool) : Option (List Task) :=
  if !(sortKey == "ctime" || sortKey == "pid" || sortKey == "priority") then none
  else if tm.filled_size == 0 then none
  else if sortKey == "ctime" then
    some (if rev then tm.tasks_queue.elems.reverse else tm.tasks_queue.elems)
  else if sortKey == "priority" then some (pySorted ltPrio rev tm.tasks_queue.elems)
  else some (pySorted ltPid rev tm.tasks_queue.elems)

/-! ### Specification-side definitions -/

/-- Whether a task has the globally minimal priority value. -/
def predLow (t : Task) : Bool := t.priority.value == 1

/-- Whether a task has the middle priority value. -/
def predMedium (t : Task) : Bool := t.priority.value == 2

/-- The priority values of the contained tasks strictly below `p`. -/
def lowerVals (p : Priority) (l : List Task) : List Nat :=
  (l.filter (fun t => decide (t.priority.value < p.value))).map
    (fun t => t.priority.value)

/-- The spec's eviction choice: the earliest-positioned occurrence of the
lowest priority present that is strictly lower than the incoming priority
`p`, or `none` when no strictly lower priority is present. -/
def evictIdxSpec (p : Priority) (l : List Task) : Option Nat :=
  match (lowerVals p l).min? with
  | none => none
  | some m => l.findIdx? (fun t => t.priority.value == m)

/-- Internal representation bound: a bounded deque never holds more than
its `maxlen` elements (Python enforces this inside `collections.deque`). -/
def dequeBound : PyQueue → Bool
  | .deque m l => decide (l.length ≤ m)
  | .pylist _ => true

/-- The spec's container invariant, together with the representation
bound: `capacity >= 1` and `len(queue) <= capacity`. -/
def Inv (tm : TaskManager) : Prop :=
  1 ≤ tm.max_queue_size ∧ (tm.filled_size : Int) ≤ tm.max_queue_size ∧
    dequeBound tm.tasks_queue = true

/-- Whether a construction attempt failed with the spec's
`InvalidCapacity` kind (the source's `EmptyTaskManagerError`). -/
def isInvalidCapacityResult : Except PyError TaskManager → Bool
  | .error (.emptyTaskManager _) => true
  | _ => false

/-! ### Concrete states used by witnesses and counterexamples -/

/-- A medium-priority task. -/
def wTaskA : Task := ⟨"a1", .medium, true⟩

/-- A second medium-priority task. -/
def wTaskB : Task := ⟨"b2", .medium, true⟩

/-- A low-priority task. -/
def wTaskC : Task := ⟨"c3", .low, true⟩

/-- A high-priority task. -/
def wTaskH : Task := ⟨"h4", .high, true⟩

/-- Another high-priority task with a fresh pid. -/
def wTaskN : Task := ⟨"n5", .high, true⟩

/-- A second low-priority task with a fresh pid. -/
def wTaskL : Task := ⟨"l6", .low, true⟩

/-- A full strict-mode manager with capacity 2. -/
def wTMdefault : TaskManager :=
  ⟨2, .deque 2 [wTaskA, wTaskH], "default", true, false⟩

/-- A full fifo-mode manager with capacity 2. -/
def wTMfifo : TaskManager :=
  ⟨2, .deque 2 [wTaskA, wTaskH], "fifo", true, false⟩

/-- A full priority-mode manager with capacity 3. -/
def wTMprio : TaskManager :=
  ⟨3, .deque 3 [wTaskA, wTaskB, wTaskC], "priority", true, false⟩

/-- A manager holding two medium tasks and a low one, for sorting. -/
def wTMsort : TaskManager :=
  ⟨3, .deque 3 [wTaskA, wTaskB, wTaskC], "default", true, false⟩

/-- A full fifo-mode manager whose queue is a plain list, as left behind
by `kill_task` / `kill_by_group`. -/
def wTMlist : TaskManager :=
  ⟨2, .pylist [wTaskA, wTaskH], "fifo", true, false⟩

/-! ### Theorems -/

/-- The duplicate check succeeds when duplicates are allowed or the pid is
fresh. -/
theorem check_ok (tm : TaskManager) (task : Task)
    (h : tm.duplicates_allowed = true ∨
      task.pid ∉ tm.tasks_queue.elems.map Task.pid) :
    tm.check_if_task_not_exists task = .ok true := by
  unfold TaskManager.check_if_task_not_exists
  rcases h with hd | hd
  · simp [hd]
  · have hm : ¬ (tm.tasks_queue.elems.map Task.pid).contains task.pid = true := by
      simpa using hd
    by_cases hda : tm.duplicates_allowed = true
    · simp [hda]
    · simp [hda, hm]
      intro x hx hpe
      exact hd (List.mem_map.mpr ⟨x, hx, hpe⟩)

/-- The duplicate check raises when duplicates are disallowed and the pid
is already present. -/
theorem check_dup_error (tm : TaskManager) (task : Task)
    (hd : tm.duplicates_allowed = false)
    (hm : task.pid ∈ tm.tasks_queue.elems.map Task.pid) :
    tm.check_if_task_not_exists task =
      .error (.duplicateTask "A job with given pid is already in queue.") := by
  unfold TaskManager.check_if_task_not_exists
  have hm' : (tm.tasks_queue.elems.map Task.pid).contains task.pid = true := by
    simpa using hm
  simp [hd, hm']
  obtain ⟨x, hx, hpe⟩ := List.mem_map.mp hm
  exact ⟨x, hx, hpe⟩

/-- Claim C2: in strict ("default") run-mode, `add` of an active task on a
container at capacity raises `MaxTaskSizeError` with the message "Task
manager does not have free job slot." and performs no mutation: the
returned state is the original manager, unchanged. -/
theorem strict_add_full_raises_no_mutation (tm : TaskManager) (task : Task)
    (hmode : tm.run_mode = "default")
    (hactive : task.is_active = true)
    (hfull : (tm.filled_size : Int) = tm.max_queue_size) :
    tm.add task =
      (tm, some (.maxTaskSize "Task manager does not have free job slot.")) := by
  unfold TaskManager.add
  rw [hactive, hmode, ← hfull]
  simp

/-- Claim C4: in fifo run-mode with duplicates disallowed, `add` of an
active task whose pid is already present on a container at capacity raises
`DuplicateTaskError`; the duplicate check runs before `popleft`, so no
eviction happens and the returned state is the original manager. -/
theorem fifo_add_duplicate_raises_no_eviction (tm : TaskManager) (task : Task)
    (hmode : tm.run_mode = "fifo")
    (hactive : task.is_active = true)
    (hdup : tm.duplicates_allowed = false)
    (hfull : (tm.filled_size : Int) = tm.max_queue_size)
    (hmem : task.pid ∈ tm.tasks_queue.elems.map Task.pid) :
    tm.add task =
      (tm, some (.duplicateTask "A job with given pid is already in queue.")) := by
  unfold TaskManager.add TaskManager.add_fifo
  rw [hactive, hmode, ← hfull, check_dup_error tm task hdup hmem]
  simp

/-- Claim C5: in priority run-mode with duplicates disallowed, `add` of an
active task whose pid is already present on a container at capacity does
not raise: the `DuplicateTaskError` is caught inside
`_add_priority_based`, the insertion is skipped and the container is
unchanged — unlike the strict and fifo paths, which propagate it. -/
theorem priority_add_duplicate_silent_skip (tm : TaskManager) (task : Task)
    (hmode : tm.run_mode = "priority")
    (hactive : task.is_active = true)
    (hdup : tm.duplicates_allowed = false)
    (hfull : (tm.filled_size : Int) = tm.max_queue_size)
    (hmem : task.pid ∈ tm.tasks_queue.elems.map Task.pid) :
    tm.add task = (tm, none) := by
  unfold TaskManager.add TaskManager.add_priority_based
  rw [hactive, hmode, ← hfull, check_dup_error tm task hdup hmem]
  by_cases h1 : task.priority.value = Priority.minValue
  · simp [h1]
  · simp [h1]

theorem scanFrom_no_lower (p : Priority) (l : List Task) (k : Nat)
    (st : Option (Nat × Priority)) (h : ∀ t ∈ l, ¬ t.priority.value < p.value) :
    scanFrom p l k st = st.map (fun s => s.1) := by
  induction l generalizing k with
  | nil => rfl
  | cons t rest ih =>
    simp only [scanFrom]
    rw [if_neg (h t (List.mem_cons_self t rest))]
    exact ih (k + 1) (fun x hx => h x (List.mem_cons_of_mem _ hx))

/-- Claim C6: in priority run-mode, `add` of an active task on a container
at capacity is a silent no-op (no exception, state unchanged) both when
the incoming priority is the lowest rank of the enumeration and when no
contained element has a strictly lower priority. -/
theorem priority_add_full_skip_noop (tm : TaskManager) (task : Task)
    (hmode : tm.run_mode = "priority")
    (hactive : task.is_active = true)
    (hfull : (tm.filled_size : Int) = tm.max_queue_size)
    (hskip : task.priority = Priority.low ∨
      ∀ t ∈ tm.tasks_queue.elems, ¬ t.priority.value < task.priority.value) :
    tm.add task = (tm, none) := by
  unfold TaskManager.add TaskManager.add_priority_based
  rw [hactive, hmode, ← hfull]
  rcases hskip with h | h
  · simp [h, Priority.minValue, Priority.value]
  · by_cases h1 : task.priority.value = Priority.minValue
    · simp [h1]
    · by_cases hd : tm.duplicates_allowed = true
      · rw [check_ok tm task (Or.inl hd)]
        simp [h1, scanFrom_no_lower _ _ _ _ h]
      · by_cases hm : task.pid ∈ tm.tasks_queue.elems.map Task.pid
        · rw [check_dup_error tm task (by simpa using hd) hm]
          simp [h1]
        · rw [check_ok tm task (Or.inr hm)]
          simp [h1, scanFrom_no_lower _ _ _ _ h]

/-- Claim C7, counterexample: constructing with capacity `-1` (an integer
that is non-positive but nonzero) does not fail with the InvalidCapacity
kind (`EmptyTaskManagerError`), contradicting the claim; the `== 0` check
passes and the underlying `deque([], -1)` raises `ValueError`. -/
theorem init_negative_capacity_not_invalid_capacity :
    isInvalidCapacityResult (TaskManager.init (.vint (-1)) "default" true false)
      = false ∧
    TaskManager.init (.vint (-1)) "default" true false =
      .error (.valueError "maxlen must be non-negative") := by
  constructor <;> rfl

/-- Claim C10: `kill_task` always rebuilds the queue as a plain Python
list, `kill_by_group` does so on every successful call, and a subsequent
fifo-mode `add` of an active, non-duplicate task on a full list-backed
manager raises `AttributeError` (a list has no `popleft`) with neither
eviction nor insertion: the returned state is unchanged. -/
theorem kill_rebuilds_list_and_fifo_add_attribute_error :
    (∀ tm p, ∃ l, (TaskManager.kill_task tm p).tasks_queue = .pylist l) ∧
    (∀ tm g m out, TaskManager.kill_by_group tm g m = out → out.2 = none →
        ∃ l, out.1.tasks_queue = .pylist l) ∧
    (∀ (tm : TaskManager) (task : Task) (l : List Task),
      tm.tasks_queue = .pylist l → tm.run_mode = "fifo" →
      task.is_active = true → tm.max_queue_size ≤ (tm.filled_size : Int) →
      (tm.duplicates_allowed = true ∨ task.pid ∉ l.map Task.pid) →
      tm.add task =
        (tm, some (.attributeError "'list' object has no attribute 'popleft'"))) := by
  refine ⟨?_, ?_, ?_⟩
  · intro tm p
    exact ⟨_, rfl⟩
  · intro tm g m out hout hnone
    unfold TaskManager.kill_by_group at hout
    by_cases hg : (g == "priority" || g == "pid") = true
    · rw [if_neg (by simp [hg])] at hout
      by_cases hp : (g == "priority") = true
      · rw [if_pos hp] at hout
        exact ⟨_, by rw [← hout]⟩
      · rw [if_neg hp] at hout
        exact ⟨_, by rw [← hout]⟩
    · rw [if_pos (by simpa using hg)] at hout
      rw [← hout] at hnone
      simp at hnone
  · intro tm task l hq hmode hactive hfull hdup
    have hdup' : tm.duplicates_allowed = true ∨
        task.pid ∉ tm.tasks_queue.elems.map Task.pid := by
      rcases hdup with hd | hd
      · exact Or.inl hd
      · exact Or.inr (by rw [hq]; exact hd)
    unfold TaskManager.add TaskManager.add_fifo
    rw [hactive, hmode, if_pos hfull, check_ok tm task hdup', hq]
    simp [PyQueue.popleft]



/-- Every priority value is at least 1. -/
theorem Priority.one_le_value (p : Priority) : 1 ≤ p.value := by
  cases p <;> simp [Priority.value]

/-- Priority values are exactly 1, 2 or 3. -/
theorem Priority.value_cases (p : Priority) :
    p.value = 1 ∨ p.value = 2 ∨ p.value = 3 := by
  cases p <;> simp [Priority.value]

theorem scanFrom_medium (l : List Task) (k : Nat) (st : Option (Nat × Priority)) :
    scanFrom .medium l k st =
      (l.findIdx? predLow k).elim (st.map (fun s => s.1)) some := by
  induction l generalizing k st with
  | nil => rfl
  | cons t rest ih =>
    cases hp : t.priority with
    | low =>
      simp [scanFrom, hp, Priority.value, Priority.minValue, predLow,
        List.findIdx?_cons]
    | medium =>
      simp only [scanFrom, hp, Priority.value, List.findIdx?_cons, predLow]
      rw [if_neg (by omega)]
      simp only [show ((2 : Nat) == 1) = false from rfl, Bool.false_eq_true,
        if_false]
      exact ih (k + 1) st
    | high =>
      simp only [scanFrom, hp, Priority.value, List.findIdx?_cons, predLow]
      rw [if_neg (by omega)]
      simp only [show ((3 : Nat) == 1) = false from rfl, Bool.false_eq_true,
        if_false]
      exact ih (k + 1) st

theorem scanFrom_high_some (l : List Task) (k i : Nat) :
    scanFrom .high l k (some (i, .medium)) =
      (l.findIdx? predLow k).elim (some i) some := by
  induction l generalizing k with
  | nil => rfl
  | cons t rest ih =>
    cases hp : t.priority with
    | low =>
      simp [scanFrom, hp, Priority.value, Priority.minValue, predLow,
        List.findIdx?_cons]
    | medium =>
      simp only [scanFrom, hp, Priority.value, Priority.minValue, predLow,
        List.findIdx?_cons]
      rw [if_pos (by omega : (2:Nat) < 3)]
      rw [if_neg (by omega : ¬ (2:Nat) = 1)]
      rw [if_neg (by omega : ¬ (2:Nat) < 2)]
      simp only [show ((2 : Nat) == 1) = false from rfl, Bool.false_eq_true,
        if_false]
      exact ih (k + 1)
    | high =>
      simp only [scanFrom, hp, Priority.value, Priority.minValue, predLow,
        List.findIdx?_cons]
      rw [if_neg (by omega : ¬ (3:Nat) < 3)]
      simp only [show ((3 : Nat) == 1) = false from rfl, Bool.false_eq_true,
        if_false]
      exact ih (k + 1)

theorem scanFrom_high_none (l : List Task) (k : Nat) :
    scanFrom .high l k none =
      (l.findIdx? predLow k).elim
        ((l.findIdx? predMedium k).elim none some) some := by
  induction l generalizing k with
  | nil => rfl
  | cons t rest ih =>
    cases hp : t.priority with
    | low =>
      simp [scanFrom, hp, Priority.value, Priority.minValue, predLow,
        predMedium, List.findIdx?_cons]
    | medium =>
      simp only [scanFrom, hp, Priority.value, Priority.minValue, predLow,
        predMedium, List.findIdx?_cons]
      rw [if_pos (by omega : (2:Nat) < 3)]
      rw [if_neg (by omega : ¬ (2:Nat) = 1)]
      simp only [show ((2 : Nat) == 1) = false from rfl,
        show ((2 : Nat) == 2) = true from rfl, Bool.false_eq_true, if_false,
        if_true]
      rw [scanFrom_high_some]
      rfl
    | high =>
      simp only [scanFrom, hp, Priority.value, Priority.minValue, predLow,
        predMedium, List.findIdx?_cons]
      rw [if_neg (by omega : ¬ (3:Nat) < 3)]
      simp only [show ((3 : Nat) == 1) = false from rfl,
        show ((3 : Nat) == 2) = false from rfl, Bool.false_eq_true, if_false]
      exact ih (k + 1)

/-- The loop of `_add_priority_based` computes exactly the spec's eviction
index: the earliest occurrence of the lowest strictly-lower priority. -/
theorem scanFrom_eq_evictIdxSpec (p : Priority) (l : List Task) :
    scanFrom p l 0 none = evictIdxSpec p l := by
  cases p with
  | low =>
    rw [scanFrom_no_lower]
    · have hnil : lowerVals .low l = [] := by
        simp only [lowerVals, List.map_eq_nil_iff, List.filter_eq_nil_iff]
        intro t _
        simp only [decide_eq_true_eq]
        rw [show Priority.low.value = 1 from rfl]
        have h2 := Priority.one_le_value t.priority
        omega
      simp [evictIdxSpec, hnil]
    · intro t _
      rw [show Priority.low.value = 1 from rfl]
      have h2 := Priority.one_le_value t.priority
      omega
  | medium =>
    rw [scanFrom_medium]
    cases hfi : l.findIdx? predLow 0 with
    | none =>
      have hfa : ∀ x ∈ l, predLow x = false := List.findIdx?_eq_none_iff.mp hfi
      have hnil : lowerVals .medium l = [] := by
        simp only [lowerVals, List.map_eq_nil_iff, List.filter_eq_nil_iff]
        intro t ht
        have h1 := hfa t ht
        simp only [predLow, beq_eq_false_iff_ne, ne_eq] at h1
        have h2 := Priority.one_le_value t.priority
        simp only [decide_eq_true_eq]
        rw [show Priority.medium.value = 2 from rfl]
        omega
      simp [evictIdxSpec, hnil]
    | some j =>
      obtain ⟨hj, hpj, _⟩ := List.findIdx?_eq_some_iff_getElem.mp hfi
      have hval : l[j].priority.value = 1 := by
        simpa [predLow] using hpj
      have hmin : (lowerVals .medium l).min? = some 1 := by
        rw [List.min?_eq_some_iff']
        constructor
        · simp only [lowerVals, List.mem_map, List.mem_filter]
          refine ⟨l[j], ⟨List.getElem_mem hj, ?_⟩, hval⟩
          rw [decide_eq_true_eq, hval]
          decide
        · intro b hb
          simp only [lowerVals, List.mem_map, List.mem_filter] at hb
          obtain ⟨t, _, rfl⟩ := hb
          exact Priority.one_le_value t.priority
      simp only [evictIdxSpec, hmin]
      rw [show (fun t : Task => t.priority.value == 1) = predLow from rfl]
      rw [hfi]
      rfl
  | high =>
    rw [scanFrom_high_none]
    cases hfi : l.findIdx? predLow 0 with
    | some j =>
      obtain ⟨hj, hpj, _⟩ := List.findIdx?_eq_some_iff_getElem.mp hfi
      have hval : l[j].priority.value = 1 := by
        simpa [predLow] using hpj
      have hmin : (lowerVals .high l).min? = some 1 := by
        rw [List.min?_eq_some_iff']
        constructor
        · simp only [lowerVals, List.mem_map, List.mem_filter]
          refine ⟨l[j], ⟨List.getElem_mem hj, ?_⟩, hval⟩
          rw [decide_eq_true_eq, hval]
          decide
        · intro b hb
          simp only [lowerVals, List.mem_map, List.mem_filter] at hb
          obtain ⟨t, _, rfl⟩ := hb
          exact Priority.one_le_value t.priority
      simp only [evictIdxSpec, hmin]
      rw [show (fun t : Task => t.priority.value == 1) = predLow from rfl]
      rw [hfi]
      rfl
    | none =>
      have hfa : ∀ x ∈ l, predLow x = false := List.findIdx?_eq_none_iff.mp hfi
      cases hfm : l.findIdx? predMedium 0 with
      | some j =>
        obtain ⟨hj, hpj, _⟩ := List.findIdx?_eq_some_iff_getElem.mp hfm
        have hval : l[j].priority.value = 2 := by
          simpa [predMedium] using hpj
        have hmin : (lowerVals .high l).min? = some 2 := by
          rw [List.min?_eq_some_iff']
          constructor
          · simp only [lowerVals, List.mem_map, List.mem_filter]
            refine ⟨l[j], ⟨List.getElem_mem hj, ?_⟩, hval⟩
            rw [decide_eq_true_eq, hval]
            decide
          · intro b hb
            simp only [lowerVals, List.mem_map, List.mem_filter] at hb
            obtain ⟨t, ⟨htl, _⟩, rfl⟩ := hb
            have h1 := hfa t htl
            simp only [predLow, beq_eq_false_iff_ne, ne_eq] at h1
            have := Priority.one_le_value t.priority
            omega
        simp only [evictIdxSpec, hmin]
        rw [show (fun t : Task => t.priority.value == 2) = predMedium from rfl]
        rw [hfm]
        rfl
      | none =>
        have hfb : ∀ x ∈ l, predMedium x = false :=
          List.findIdx?_eq_none_iff.mp hfm
        have hnil : lowerVals .high l = [] := by
          simp only [lowerVals, List.map_eq_nil_iff, List.filter_eq_nil_iff]
          intro t ht
          have h1 := hfa t ht
          have h2 := hfb t ht
          simp only [predLow, beq_eq_false_iff_ne, ne_eq] at h1
          simp only [predMedium, beq_eq_false_iff_ne, ne_eq] at h2
          have h3 := Priority.value_cases t.priority
          simp only [decide_eq_true_eq]
          rw [show Priority.high.value = 3 from rfl]
          omega
        simp [evictIdxSpec, hnil]


/-- `del` on an in-range deque index. -/
theorem delIdx_deque (m : Nat) (l : List Task) (i : Nat) (h : i < l.length) :
    (PyQueue.deque m l).delIdx i = .ok (.deque m (l.eraseIdx i)) := by
  unfold PyQueue.delIdx
  rw [if_pos (show i < (PyQueue.deque m l).elems.length from h)]

/-- `append` on a deque strictly below its bound. -/
theorem append_deque_lt (m : Nat) (l : List Task) (t : Task)
    (h : l.length < m) : (PyQueue.deque m l).append t = .deque m (l ++ [t]) := by
  simp [PyQueue.append, h]

/-- Dispatch: a full container in priority mode delegates `add` to
`_add_priority_based`. -/
theorem add_dispatch_priority (tm : TaskManager) (task : Task)
    (hmode : tm.run_mode = "priority") (hactive : task.is_active = true)
    (hfull : tm.max_queue_size ≤ (tm.filled_size : Int)) :
    tm.add task = tm.add_priority_based task := by
  unfold TaskManager.add
  rw [hactive, hmode]
  simp [hfull]

/-- Claim C1: in priority run-mode, for a full deque-backed container that
holds at least one task of strictly lower priority than the incoming
active, non-duplicate task, `add` deletes exactly one element — the one at
the first (oldest) position carrying the lowest priority value present
among those strictly below the incoming priority (older equal-priority
tasks are preserved: every earlier position carries a different value) —
and appends the incoming task at the tail. -/
theorem priority_add_full_evicts_oldest_lowest (tm : TaskManager) (task : Task)
    (c : Nat) (l : List Task)
    (hq : tm.tasks_queue = .deque c l)
    (hcap : tm.max_queue_size = (c : Int))
    (hfull : l.length = c)
    (hmode : tm.run_mode = "priority")
    (hactive : task.is_active = true)
    (hdup : tm.duplicates_allowed = true ∨ task.pid ∉ l.map Task.pid)
    (hlower : ∃ t ∈ l, t.priority.value < task.priority.value) :
    ∃ i, ∃ hi : i < l.length,
      tm.add task =
        ({ tm with tasks_queue := .deque c (l.eraseIdx i ++ [task]) }, none) ∧
      (l.get ⟨i, hi⟩).priority.value < task.priority.value ∧
      (∀ t ∈ l, t.priority.value < task.priority.value →
        (l.get ⟨i, hi⟩).priority.value ≤ t.priority.value) ∧
      (∀ j, (hj : j < i) →
        (l.get ⟨j, Nat.lt_trans hj hi⟩).priority.value ≠
          (l.get ⟨i, hi⟩).priority.value) := by
  obtain ⟨t0, ht0l, ht0v⟩ := hlower
  have ht0mem : t0.priority.value ∈ lowerVals task.priority l := by
    simp only [lowerVals, List.mem_map, List.mem_filter]
    exact ⟨t0, ⟨ht0l, by simpa using ht0v⟩, rfl⟩
  obtain ⟨m, hmin⟩ :=
    Option.isSome_iff_exists.mp (List.isSome_min?_of_mem ht0mem)
  obtain ⟨hm_mem, hm_le⟩ := List.min?_eq_some_iff'.mp hmin
  have hm_lt : m < task.priority.value := by
    simp only [lowerVals, List.mem_map, List.mem_filter] at hm_mem
    obtain ⟨t1, ⟨_, h1⟩, rfl⟩ := hm_mem
    simpa using h1
  have hm_ge1 : 1 ≤ m := by
    simp only [lowerVals, List.mem_map, List.mem_filter] at hm_mem
    obtain ⟨t1, _, rfl⟩ := hm_mem
    exact Priority.one_le_value t1.priority
  have hex : ¬ l.findIdx? (fun t => t.priority.value == m) = none := by
    intro hnone
    have hfa := List.findIdx?_eq_none_iff.mp hnone
    simp only [lowerVals, List.mem_map, List.mem_filter] at hm_mem
    obtain ⟨t1, ⟨ht1l, _⟩, hv⟩ := hm_mem
    have h2 := hfa t1 ht1l
    rw [hv] at h2
    simp at h2
  obtain ⟨i, hfi⟩ := Option.ne_none_iff_exists'.mp hex
  obtain ⟨hi, hpi, hprev⟩ := List.findIdx?_eq_some_iff_getElem.mp hfi
  have hvi : l[i].priority.value = m := by simpa using hpi
  have hevict : evictIdxSpec task.priority l = some i := by
    simp only [evictIdxSpec, hmin]
    exact hfi
  refine ⟨i, hi, ?_, ?_, ?_, ?_⟩
  · have hdup2 : tm.duplicates_allowed = true ∨
        task.pid ∉ tm.tasks_queue.elems.map Task.pid := by
      rcases hdup with h | h
      · exact Or.inl h
      · refine Or.inr ?_
        rw [hq]
        exact h
    have hne1 : ¬ task.priority.value = Priority.minValue := by
      rw [show Priority.minValue = 1 from rfl]
      omega
    have hfull2 : tm.max_queue_size ≤ (tm.filled_size : Int) := by
      rw [hcap]
      unfold TaskManager.filled_size
      rw [hq]
      simp [PyQueue.elems, hfull]
    have hlen : (l.eraseIdx i).length < c := by
      rw [List.length_eraseIdx_of_lt hi]
      omega
    rw [add_dispatch_priority tm task hmode hactive hfull2]
    unfold TaskManager.add_priority_based
    rw [if_neg hne1, check_ok tm task hdup2]
    simp only [hq, PyQueue.elems, scanFrom_eq_evictIdxSpec, hevict,
      delIdx_deque c l i hi, append_deque_lt c (l.eraseIdx i) task hlen]
  · simp only [List.get_eq_getElem]
    omega
  · intro t htl htv
    have hmem2 : t.priority.value ∈ lowerVals task.priority l := by
      simp only [lowerVals, List.mem_map, List.mem_filter]
      exact ⟨t, ⟨htl, by simpa using htv⟩, rfl⟩
    simp only [List.get_eq_getElem]
    rw [hvi]
    exact hm_le _ hmem2
  · intro j hj
    have h2 := hprev j hj
    simp only [List.get_eq_getElem]
    rw [hvi]
    simpa using h2

/-- `popleft` on a non-empty deque. -/
theorem popleft_deque_cons (m : Nat) (t : Task) (rest : List Task) :
    (PyQueue.deque m (t :: rest)).popleft = .ok (.deque m rest) := rfl

/-- Dispatch: a full container in fifo mode delegates `add` to `_add_fifo`. -/
theorem add_dispatch_fifo (tm : TaskManager) (task : Task)
    (hmode : tm.run_mode = "fifo") (hactive : task.is_active = true)
    (hfull : tm.max_queue_size ≤ (tm.filled_size : Int)) :
    tm.add task = tm.add_fifo task := by
  unfold TaskManager.add
  rw [hactive, hmode]
  simp [hfull]

/-- Claim C3: in fifo run-mode, `add` of an active non-duplicate task on a
full deque-backed container removes the head and appends the new task: the
result is `tail ++ [task]`, the size stays at capacity, the new task is
the tail, and (when pids are unique and the new pid is fresh) the original
head pid is gone. -/
theorem fifo_add_full_evicts_head (tm : TaskManager) (task : Task)
    (c : Nat) (l : List Task)
    (hq : tm.tasks_queue = .deque c l)
    (hcap : tm.max_queue_size = (c : Int))
    (hfull : l.length = c)
    (hc : 1 ≤ c)
    (hmode : tm.run_mode = "fifo")
    (hactive : task.is_active = true)
    (hdup : tm.duplicates_allowed = true ∨ task.pid ∉ l.map Task.pid) :
    tm.add task =
      ({ tm with tasks_queue := .deque c (l.tail ++ [task]) }, none) ∧
    (l.tail ++ [task]).length = c ∧
    (l.tail ++ [task]).getLast? = some task ∧
    ((l.map Task.pid).Nodup → task.pid ∉ l.map Task.pid →
      ∀ h0 : 0 < l.length,
        (l.get ⟨0, h0⟩).pid ∉ (l.tail ++ [task]).map Task.pid) := by
  cases l with
  | nil => simp at hfull; omega
  | cons t0 rest =>
    have hlen : rest.length < c := by
      simp at hfull
      omega
    have hdup2 : tm.duplicates_allowed = true ∨
        task.pid ∉ tm.tasks_queue.elems.map Task.pid := by
      rcases hdup with h | h
      · exact Or.inl h
      · refine Or.inr ?_
        rw [hq]
        exact h
    have hfull2 : tm.max_queue_size ≤ (tm.filled_size : Int) := by
      rw [hcap]
      unfold TaskManager.filled_size
      rw [hq]
      simp [PyQueue.elems, hfull]
    refine ⟨?_, ?_, ?_, ?_⟩
    · rw [add_dispatch_fifo tm task hmode hactive hfull2]
      unfold TaskManager.add_fifo
      rw [check_ok tm task hdup2]
      simp only [hq, popleft_deque_cons, append_deque_lt c rest task hlen,
        List.tail_cons]
    · simp at hfull ⊢
      omega
    · simp [List.getLast?_concat]
    · intro hnodup hnotin h0
      simp only [List.get_eq_getElem, List.getElem_cons_zero, List.tail_cons,
        List.map_append, List.mem_append, List.map_cons, List.mem_singleton]
      rintro (hmem | heq)
      · simp only [List.map_cons, List.nodup_cons] at hnodup
        exact hnodup.1 hmem
      · have h2 : t0.pid = task.pid := by simpa using heq
        apply hnotin
        rw [← h2]
        simp

/-- Claim C7, amended: construction fails with the InvalidCapacity kind
(`EmptyTaskManagerError`) exactly when the capacity compares equal to
zero; with the InvalidRunMode kind for an unrecognized run_mode and
nonzero capacity; with the InvalidType kind (`TypeError`) for a nonzero
non-integer capacity and valid run_mode; with a `ValueError` from the
underlying deque — outside the spec's taxonomy — for a negative integer
capacity; and yields an empty container for every positive integer
capacity with a recognized run_mode. -/
theorem init_characterization (mqs : PyVal) (r : String) (v d : Bool) :
    (mqs.eqZero = true →
      TaskManager.init mqs r v d =
        .error (.emptyTaskManager
          "Empty task manager container is not permitted.")) ∧
    (mqs.eqZero = false → validRunMode r = false →
      TaskManager.init mqs r v d =
        .error (.exceptionError
          "'method' can only be in ('default', 'fifo', 'priority')")) ∧
    (mqs.eqZero = false → validRunMode r = true → mqs.isIntType = false →
      TaskManager.init mqs r v d =
        .error (.typeError "Only integers are allowed")) ∧
    (∀ n : Int, mqs = .vint n → n < 0 → validRunMode r = true →
      TaskManager.init mqs r v d =
        .error (.valueError "maxlen must be non-negative")) ∧
    (∀ n : Int, mqs = .vint n → 0 < n → validRunMode r = true →
      TaskManager.init mqs r v d =
        .ok ⟨n, .deque n.toNat [], r, v, d⟩) := by
  refine ⟨?_, ?_, ?_, ?_, ?_⟩
  · intro h0
    simp [TaskManager.init, h0]
  · intro h0 hr
    simp [TaskManager.init, h0, hr]
  · intro h0 hr hint
    cases mqs with
    | vint n => simp [PyVal.isIntType] at hint
    | vfloat q => simp [TaskManager.init, h0, hr]
    | vbool b => simp [TaskManager.init, h0, hr]
  · intro n hn hneg hr
    subst hn
    have h0 : (PyVal.vint n).eqZero = false := by
      simp [PyVal.eqZero]
      omega
    simp [TaskManager.init, h0, hr, hneg]
  · intro n hn hpos hr
    subst hn
    have h0 : (PyVal.vint n).eqZero = false := by
      simp [PyVal.eqZero]
      omega
    simp [TaskManager.init, h0, hr]
    omega

/-- A successful construction satisfies the container invariant. -/
theorem inv_init (mqs : PyVal) (r : String) (v d : Bool) (tm : TaskManager)
    (h : TaskManager.init mqs r v d = .ok tm) : Inv tm := by
  unfold TaskManager.init at h
  by_cases h0 : mqs.eqZero = true
  · rw [if_pos h0] at h
    cases h
  · rw [if_neg h0] at h
    by_cases hr : validRunMode r = true
    · rw [if_neg (by simp [hr])] at h
      cases mqs with
      | vint n =>
        by_cases hneg : n < 0
        · simp [hneg] at h
        · simp [hneg] at h
          have hne : ¬ n = 0 := by
            simpa [PyVal.eqZero] using h0
          subst h
          unfold Inv
          refine ⟨?_, ?_, ?_⟩
          · show (1 : Int) ≤ n
            omega
          · show ((0 : Nat) : Int) ≤ n
            omega
          · simp [dequeBound]
      | vfloat q => simp at h
      | vbool b => simp at h
    · rw [if_pos (by simpa using hr)] at h
      cases h

/-- `append` on a bounded deque keeps the bound and grows by at most one. -/
theorem append_deque_spec (m : Nat) (l : List Task) (t : Task)
    (hb : l.length ≤ m) :
    ∃ l2, (PyQueue.deque m l).append t = .deque m l2 ∧ l2.length ≤ m ∧
      l2.length ≤ l.length + 1 := by
  by_cases hlt : l.length < m
  · refine ⟨l ++ [t], append_deque_lt m l t hlt, ?_, ?_⟩
    · simp
      omega
    · simp
  · refine ⟨(l ++ [t]).drop (l.length + 1 - m), ?_, ?_, ?_⟩
    · simp [PyQueue.append, hlt]
    · simp
      omega
    · simp

theorem inv_add_fifo (tm : TaskManager) (task : Task) (h : Inv tm) :
    Inv (tm.add_fifo task).1 := by
  obtain ⟨hcap, hfill, hbound⟩ := h
  unfold TaskManager.add_fifo
  cases hchk : tm.check_if_task_not_exists task with
  | error e =>
    exact ⟨hcap, hfill, hbound⟩
  | ok b =>
    cases hq : tm.tasks_queue with
    | pylist l =>
      exact ⟨hcap, hfill, hbound⟩
    | deque m l =>
      cases l with
      | nil =>
        exact ⟨hcap, hfill, hbound⟩
      | cons t0 rest =>
        have hb : (t0 :: rest).length ≤ m := by
          have h2 := hbound
          rw [hq] at h2
          simpa [dequeBound] using h2
        have hfill2 : ((t0 :: rest).length : Int) ≤ tm.max_queue_size := by
          unfold TaskManager.filled_size at hfill
          rw [hq] at hfill
          simpa [PyQueue.elems] using hfill
        obtain ⟨l2, happ, hl2m, hl2len⟩ :=
          append_deque_spec m rest task (by simp at hb; omega)
        simp [hq, PyQueue.popleft, happ]
        refine ⟨hcap, ?_, ?_⟩
        · unfold TaskManager.filled_size
          simp only [PyQueue.elems]
          simp at hfill2
          omega
        · simp [dequeBound]
          exact hl2m

theorem inv_add_priority (tm : TaskManager) (task : Task) (h : Inv tm) :
    Inv (tm.add_priority_based task).1 := by
  obtain ⟨hcap, hfill, hbound⟩ := h
  unfold TaskManager.add_priority_based
  by_cases h1 : task.priority.value = Priority.minValue
  · simp only [h1, if_pos]
    exact ⟨hcap, hfill, hbound⟩
  · rw [if_neg h1]
    cases hchk : tm.check_if_task_not_exists task with
    | error e =>
      cases e
      all_goals exact ⟨hcap, hfill, hbound⟩
    | ok b =>
      cases hscan : scanFrom task.priority tm.tasks_queue.elems 0 none with
      | none =>
        exact ⟨hcap, hfill, hbound⟩
      | some i =>
        cases hq : tm.tasks_queue with
        | deque m l =>
          have hfill2 : (l.length : Int) ≤ tm.max_queue_size := by
            unfold TaskManager.filled_size at hfill
            rw [hq] at hfill
            simpa [PyQueue.elems] using hfill
          have hb : l.length ≤ m := by
            have h2 := hbound
            rw [hq] at h2
            simpa [dequeBound] using h2
          by_cases hi : i < l.length
          · obtain ⟨l2, happ, hl2m, hl2len⟩ :=
              append_deque_spec m (l.eraseIdx i) task
                (le_trans (List.length_eraseIdx_le l i) hb)
            simp [hq, delIdx_deque m l i hi, happ]
            refine ⟨hcap, ?_, ?_⟩
            · unfold TaskManager.filled_size
              simp only [PyQueue.elems]
              have h3 := List.length_eraseIdx_of_lt hi
              omega
            · simp [dequeBound]
              exact hl2m
          · have hdel : (PyQueue.deque m l).delIdx i =
                .error (.indexError "index out of range") := by
              unfold PyQueue.delIdx
              rw [if_neg (show ¬ i < (PyQueue.deque m l).elems.length from hi)]
            simp [hq, hdel]
            exact ⟨hcap, hfill, hbound⟩
        | pylist l =>
          have hfill2 : (l.length : Int) ≤ tm.max_queue_size := by
            unfold TaskManager.filled_size at hfill
            rw [hq] at hfill
            simpa [PyQueue.elems] using hfill
          by_cases hi : i < l.length
          · have hdel : (PyQueue.pylist l).delIdx i =
                .ok (.pylist (l.eraseIdx i)) := by
              unfold PyQueue.delIdx
              rw [if_pos (show i < (PyQueue.pylist l).elems.length from hi)]
            simp [hq, hdel, PyQueue.append]
            refine ⟨hcap, ?_, ?_⟩
            · unfold TaskManager.filled_size
              simp only [PyQueue.elems]
              have h3 := List.length_eraseIdx_of_lt hi
              simp
              omega
            · simp [dequeBound]
          · have hdel : (PyQueue.pylist l).delIdx i =
                .error (.indexError "index out of range") := by
              unfold PyQueue.delIdx
              rw [if_neg (show ¬ i < (PyQueue.pylist l).elems.length from hi)]
            simp [hq, hdel]
            exact ⟨hcap, hfill, hbound⟩

theorem inv_add_plain (tm : TaskManager) (task : Task) (h : Inv tm)
    (hlt : (tm.filled_size : Int) < tm.max_queue_size) :
    Inv (tm.add_plain task).1 := by
  obtain ⟨hcap, hfill, hbound⟩ := h
  unfold TaskManager.add_plain
  cases hchk : tm.check_if_task_not_exists task with
  | error e =>
    exact ⟨hcap, hfill, hbound⟩
  | ok b =>
    cases hq : tm.tasks_queue with
    | pylist l =>
      have hfill2 : (l.length : Int) < tm.max_queue_size := by
        unfold TaskManager.filled_size at hlt
        rw [hq] at hlt
        simpa [PyQueue.elems] using hlt
      simp [hq, PyQueue.append]
      refine ⟨hcap, ?_, ?_⟩
      · unfold TaskManager.filled_size
        simp only [PyQueue.elems]
        simp
        omega
      · simp [dequeBound]
    | deque m l =>
      have hfill2 : (l.length : Int) < tm.max_queue_size := by
        unfold TaskManager.filled_size at hlt
        rw [hq] at hlt
        simpa [PyQueue.elems] using hlt
      have hb : l.length ≤ m := by
        have h2 := hbound
        rw [hq] at h2
        simpa [dequeBound] using h2
      obtain ⟨l2, happ, hl2m, hl2len⟩ := append_deque_spec m l task hb
      simp [hq, happ]
      refine ⟨hcap, ?_, ?_⟩
      · unfold TaskManager.filled_size
        simp only [PyQueue.elems]
        omega
      · simp [dequeBound]
        exact hl2m

theorem inv_add (tm : TaskManager) (task : Task) (h : Inv tm) :
    Inv (tm.add task).1 := by
  unfold TaskManager.add
  split
  · exact h
  · split
    · split
      · exact h
      · split
        · exact inv_add_fifo tm task h
        · split
          · exact inv_add_priority tm task h
          · exact h
    · rename_i hnfull
      exact inv_add_plain tm task h (by omega)

theorem inv_kill_task (tm : TaskManager) (p : String) (h : Inv tm) :
    Inv (tm.kill_task p) := by
  obtain ⟨hcap, hfill, hbound⟩ := h
  have hfill2 : ((tm.tasks_queue.elems.length : Nat) : Int) ≤
      tm.max_queue_size := hfill
  refine ⟨hcap, ?_, rfl⟩
  show (((tm.tasks_queue.elems.filter
      (fun e => e.pid != p)).length : Nat) : Int) ≤ tm.max_queue_size
  have h2 := List.length_filter_le (fun e : Task => e.pid != p)
    tm.tasks_queue.elems
  omega

theorem inv_kill_by_group (tm : TaskManager) (g mt : String) (h : Inv tm) :
    Inv (tm.kill_by_group g mt).1 := by
  obtain ⟨hcap, hfill, hbound⟩ := h
  have hfill2 : ((tm.tasks_queue.elems.length : Nat) : Int) ≤
      tm.max_queue_size := hfill
  unfold TaskManager.kill_by_group
  split
  · exact ⟨hcap, hfill, hbound⟩
  · split
    · refine ⟨hcap, ?_, rfl⟩
      show (((tm.tasks_queue.elems.filter
          (fun e => e.priority.pname != mt)).length : Nat) : Int) ≤
        tm.max_queue_size
      have h2 := List.length_filter_le
        (fun e : Task => e.priority.pname != mt) tm.tasks_queue.elems
      omega
    · refine ⟨hcap, ?_, rfl⟩
      show (((tm.tasks_queue.elems.filter
          (fun e => !(e.pid.startsWith mt))).length : Nat) : Int) ≤
        tm.max_queue_size
      have h2 := List.length_filter_le
        (fun e : Task => !(e.pid.startsWith mt)) tm.tasks_queue.elems
      omega

theorem inv_kill_all (tm : TaskManager) (h : Inv tm) :
    Inv tm.kill_all_tasks := by
  obtain ⟨mx, q, rm, vb, da⟩ := tm
  obtain ⟨hcap, hfill, hbound⟩ := h
  have hcap2 : (1 : Int) ≤ mx := hcap
  cases q with
  | deque m l =>
    refine ⟨hcap, ?_, ?_⟩
    · show (((List.length ([] : List Task) : Nat)) : Int) ≤ mx
      simp
      omega
    · show dequeBound (.deque m []) = true
      simp [dequeBound]
  | pylist l =>
    refine ⟨hcap, ?_, rfl⟩
    show (((List.length ([] : List Task) : Nat)) : Int) ≤ mx
    simp
    omega

/-- Priority values determine the priority. -/
theorem Priority.value_inj (p q : Priority) (h : p.value = q.value) : p = q := by
  cases p <;> cases q <;> first | rfl | (simp [Priority.value] at h)

theorem mem_pyInsert (lt : Task → Task → Bool) (a x : Task) (l : List Task) :
    x ∈ pyInsert lt a l ↔ x = a ∨ x ∈ l := by
  induction l with
  | nil => simp [pyInsert]
  | cons b bs ih =>
    by_cases h : lt b a = true
    all_goals simp [pyInsert, h, ih]
    all_goals try tauto

theorem pyInsert_perm (lt : Task → Task → Bool) (a : Task) (l : List Task) :
    (pyInsert lt a l).Perm (a :: l) := by
  induction l with
  | nil => simp [pyInsert]
  | cons b bs ih =>
    by_cases h : lt b a = true
    · simp only [pyInsert, h, if_true]
      exact (ih.cons b).trans (List.Perm.swap a b bs)
    · have h2 : lt b a = false := by simpa using h
      simp only [pyInsert, h2, Bool.false_eq_true, if_false]
      exact List.Perm.refl _

theorem pySort_perm (lt : Task → Task → Bool) (l : List Task) :
    (pySort lt l).Perm l := by
  induction l with
  | nil => exact List.Perm.refl _
  | cons a as ih =>
    exact (pyInsert_perm lt a (pySort lt as)).trans (ih.cons a)

theorem pyInsert_pairwise_prio (a : Task) (l : List Task)
    (h : l.Pairwise (fun x y => x.priority.value ≤ y.priority.value)) :
    (pyInsert ltPrio a l).Pairwise
      (fun x y => x.priority.value ≤ y.priority.value) := by
  induction l with
  | nil => simp [pyInsert]
  | cons b bs ih =>
    rw [List.pairwise_cons] at h
    obtain ⟨hb, hbs⟩ := h
    by_cases hlt : ltPrio b a = true
    · simp only [pyInsert, hlt, if_true]
      rw [List.pairwise_cons]
      refine ⟨?_, ih hbs⟩
      intro x hx
      rw [mem_pyInsert] at hx
      unfold ltPrio at hlt
      simp only [decide_eq_true_eq] at hlt
      rcases hx with rfl | hx
      · omega
      · exact hb x hx
    · have h2 : ltPrio b a = false := by simpa using hlt
      simp only [pyInsert, h2, Bool.false_eq_true, if_false]
      rw [List.pairwise_cons]
      unfold ltPrio at hlt
      simp only [decide_eq_true_eq] at hlt
      refine ⟨?_, List.pairwise_cons.mpr ⟨hb, hbs⟩⟩
      intro x hx
      rcases List.mem_cons.mp hx with rfl | hx
      · omega
      · have h2 := hb x hx
        omega

theorem pySort_pairwise_prio (l : List Task) :
    (pySort ltPrio l).Pairwise
      (fun x y => x.priority.value ≤ y.priority.value) := by
  induction l with
  | nil => simp [pySort]
  | cons a as ih => exact pyInsert_pairwise_prio a (pySort ltPrio as) ih

theorem filter_pyInsert_prio (pr : Priority) (a : Task) (l : List Task) :
    (pyInsert ltPrio a l).filter (fun t => t.priority == pr) =
      if a.priority == pr then
        a :: l.filter (fun t => t.priority == pr)
      else l.filter (fun t => t.priority == pr) := by
  induction l with
  | nil => simp only [pyInsert, List.filter_cons, List.filter_nil]
  | cons b bs ih =>
    by_cases hlt : ltPrio b a = true
    · have hvlt : b.priority.value < a.priority.value := by
        unfold ltPrio at hlt
        simpa using hlt
      simp only [pyInsert, hlt, if_true, List.filter_cons]
      by_cases hap : (a.priority == pr) = true
      · have hbp : (b.priority == pr) = false := by
          rw [beq_eq_false_iff_ne]
          intro hbe
          have hae : a.priority = pr := by simpa using hap
          rw [hbe, hae] at hvlt
          omega
        simp only [hbp, Bool.false_eq_true, if_false, ih, hap, if_true]
      · have hap2 : (a.priority == pr) = false := by
          simpa using hap
        simp only [ih, hap2, Bool.false_eq_true, if_false, List.filter_cons]
    · have h2 : ltPrio b a = false := by simpa using hlt
      simp only [pyInsert, h2, Bool.false_eq_true, if_false, List.filter_cons]

theorem filter_pySort_prio (pr : Priority) (l : List Task) :
    (pySort ltPrio l).filter (fun t => t.priority == pr) =
      l.filter (fun t => t.priority == pr) := by
  induction l with
  | nil => rfl
  | cons a as ih =>
    simp only [pySort, filter_pyInsert_prio, ih, List.filter_cons]

/-- Claim C9, amended: for a non-empty container, listing by "priority"
returns a new sequence sorted ascending by priority rank with
equal-priority elements in original insertion order; with `reverse=True`
it returns the elements sorted descending, again with equal-priority
elements in original insertion order (a stable descending sort, not a
reversal of the ascending order). -/
theorem list_priority_sorted_stable (tm : TaskManager)
    (hne : tm.filled_size ≠ 0) :
    ∃ la ld,
      tm.list_running_tasks "priority" false = some la ∧
      tm.list_running_tasks "priority" true = some ld ∧
      la.Perm tm.tasks_queue.elems ∧
      ld.Perm tm.tasks_queue.elems ∧
      la.Pairwise (fun x y => x.priority.value ≤ y.priority.value) ∧
      ld.Pairwise (fun x y => y.priority.value ≤ x.priority.value) ∧
      (∀ pr : Priority, la.filter (fun t => t.priority == pr) =
        tm.tasks_queue.elems.filter (fun t => t.priority == pr)) ∧
      (∀ pr : Priority, ld.filter (fun t => t.priority == pr) =
        tm.tasks_queue.elems.filter (fun t => t.priority == pr)) := by
  have hne2 : (tm.filled_size == 0) = false := by simpa using hne
  refine ⟨pySort ltPrio tm.tasks_queue.elems,
    (pySort ltPrio tm.tasks_queue.elems.reverse).reverse,
    ?_, ?_, ?_, ?_, ?_, ?_, ?_, ?_⟩
  · simp [TaskManager.list_running_tasks, hne2, pySorted]
  · simp [TaskManager.list_running_tasks, hne2, pySorted]
  · exact pySort_perm ltPrio tm.tasks_queue.elems
  · exact ((List.reverse_perm _).trans
      (pySort_perm ltPrio tm.tasks_queue.elems.reverse)).trans
      (List.reverse_perm _)
  · exact pySort_pairwise_prio tm.tasks_queue.elems
  · rw [List.pairwise_reverse]
    exact pySort_pairwise_prio tm.tasks_queue.elems.reverse
  · intro pr
    exact filter_pySort_prio pr tm.tasks_queue.elems
  · intro pr
    rw [List.filter_reverse, filter_pySort_prio pr,
      List.filter_reverse, List.reverse_reverse]

/-- Claim C8, amended: `len(queue) <= capacity`, `capacity >= 1` and the
deque bound hold after construction and are preserved by `add`,
`kill_task`, `kill_by_group` and `kill_all_tasks`; but both setters are
plain assignments that perform no validation at all, so they do not
preserve the invariant (see the counterexample). -/
theorem invariant_preserved_by_core_ops_not_setters :
    (∀ (mqs : PyVal) (r : String) (v d : Bool) (tm : TaskManager),
      TaskManager.init mqs r v d = .ok tm → Inv tm) ∧
    (∀ (tm : TaskManager) (task : Task), Inv tm → Inv (tm.add task).1) ∧
    (∀ (tm : TaskManager) (p : String), Inv tm → Inv (tm.kill_task p)) ∧
    (∀ (tm : TaskManager) (g mt : String), Inv tm →
      Inv (tm.kill_by_group g mt).1) ∧
    (∀ tm : TaskManager, Inv tm → Inv tm.kill_all_tasks) ∧
    (∀ (tm : TaskManager) (m : Int),
      tm.set_max_queue_size m = { tm with max_queue_size := m }) ∧
    (∀ (tm : TaskManager) (r : String),
      tm.set_run_method r = { tm with run_mode := r }) :=
  ⟨inv_init, inv_add, inv_kill_task, inv_kill_by_group, inv_kill_all,
   fun _ _ => rfl, fun _ _ => rfl⟩

theorem invariant_witness :
    Inv (⟨3, .deque 3 [], "priority", true, false⟩ : TaskManager) :=
  invariant_preserved_by_core_ops_not_setters.1 (.vint 3) "priority" true
    false _ rfl

/-- Claim C8, counterexample: a reachable manager (capacity 2, two tasks
added) on which `set_max_queue_size 0` yields capacity 0 with two queued
tasks — violating both `capacity >= 1` and `len(queue) <= capacity` — and
`set_run_method "bogus"` stores an unrecognized run mode without any
re-validation. -/
theorem setter_breaks_invariant_counterexample :
    (TaskManager.init (.vint 2) "default" true false =
      .ok ⟨2, .deque 2 [], "default", true, false⟩) ∧
    ((⟨2, .deque 2 [], "default", true, false⟩ : TaskManager).add wTaskA =
      (⟨2, .deque 2 [wTaskA], "default", true, false⟩, none)) ∧
    ((⟨2, .deque 2 [wTaskA], "default", true, false⟩ : TaskManager).add
        wTaskH = (wTMdefault, none)) ∧
    ¬ Inv (wTMdefault.set_max_queue_size 0) ∧
    (wTMdefault.set_run_method "bogus").run_mode = "bogus" := by
  refine ⟨rfl, rfl, rfl, ?_, rfl⟩
  intro h
  exact absurd h.1 (by decide)

/-- Claim C9, counterexample: with two equal-priority tasks, listing by
priority with `reverse=True` is not the wholesale reversal of the
ascending listing: Python's `sorted` is stable even for `reverse=True`, so
equal-priority tasks keep their original relative order. -/
theorem list_priority_reverse_not_wholesale_reversal :
    wTMsort.list_running_tasks "priority" true ≠
      (wTMsort.list_running_tasks "priority" false).map List.reverse := by
  decide

theorem strict_witness :
    wTMdefault.add wTaskN =
      (wTMdefault,
        some (.maxTaskSize "Task manager does not have free job slot.")) :=
  strict_add_full_raises_no_mutation wTMdefault wTaskN rfl rfl (by decide)

theorem fifo_evict_witness :
    wTMfifo.add wTaskN =
      ({ wTMfifo with tasks_queue :=
          PyQueue.deque 2 ([wTaskA, wTaskH].tail ++ [wTaskN]) }, none) ∧
    ([wTaskA, wTaskH].tail ++ [wTaskN]).length = 2 ∧
    ([wTaskA, wTaskH].tail ++ [wTaskN]).getLast? = some wTaskN ∧
    (([wTaskA, wTaskH].map Task.pid).Nodup →
      wTaskN.pid ∉ [wTaskA, wTaskH].map Task.pid →
      ∀ h0 : 0 < [wTaskA, wTaskH].length,
        ([wTaskA, wTaskH].get ⟨0, h0⟩).pid ∉
          ([wTaskA, wTaskH].tail ++ [wTaskN]).map Task.pid) :=
  fifo_add_full_evicts_head wTMfifo wTaskN 2 [wTaskA, wTaskH] rfl (by decide)
    rfl (by decide) rfl rfl (Or.inr (by decide))

theorem fifo_duplicate_witness :
    wTMfifo.add wTaskA =
      (wTMfifo,
        some (.duplicateTask "A job with given pid is already in queue.")) :=
  fifo_add_duplicate_raises_no_eviction wTMfifo wTaskA rfl rfl rfl (by decide)
    (by decide)

theorem priority_duplicate_witness :
    wTMprio.add wTaskA = (wTMprio, none) :=
  priority_add_duplicate_silent_skip wTMprio wTaskA rfl rfl rfl (by decide)
    (by decide)

theorem priority_skip_witness :
    wTMprio.add wTaskL = (wTMprio, none) :=
  priority_add_full_skip_noop wTMprio wTaskL rfl rfl (by decide) (Or.inl rfl)

theorem priority_evict_witness :
    ∃ i, ∃ hi : i < [wTaskA, wTaskB, wTaskC].length,
      wTMprio.add wTaskH =
        ({ wTMprio with tasks_queue :=
            PyQueue.deque 3 ([wTaskA, wTaskB, wTaskC].eraseIdx i ++ [wTaskH]) },
          none) ∧
      ([wTaskA, wTaskB, wTaskC].get ⟨i, hi⟩).priority.value <
        wTaskH.priority.value ∧
      (∀ t ∈ [wTaskA, wTaskB, wTaskC],
        t.priority.value < wTaskH.priority.value →
        ([wTaskA, wTaskB, wTaskC].get ⟨i, hi⟩).priority.value ≤
          t.priority.value) ∧
      (∀ j, (hj : j < i) →
        ([wTaskA, wTaskB, wTaskC].get ⟨j, Nat.lt_trans hj hi⟩).priority.value ≠
          ([wTaskA, wTaskB, wTaskC].get ⟨i, hi⟩).priority.value) :=
  priority_add_full_evicts_oldest_lowest wTMprio wTaskH 3
    [wTaskA, wTaskB, wTaskC] rfl (by decide) rfl rfl rfl
    (Or.inr (by decide)) ⟨wTaskC, by decide, by decide⟩

theorem init_witness :
    TaskManager.init (.vint 3) "fifo" true false =
      .ok ⟨3, .deque 3 [], "fifo", true, false⟩ :=
  (init_characterization (.vint 3) "fifo" true false).2.2.2.2 3 rfl
    (by decide) rfl

theorem list_sorted_witness :
    ∃ la ld,
      wTMsort.list_running_tasks "priority" false = some la ∧
      wTMsort.list_running_tasks "priority" true = some ld ∧
      la.Perm wTMsort.tasks_queue.elems ∧
      ld.Perm wTMsort.tasks_queue.elems ∧
      la.Pairwise (fun x y => x.priority.value ≤ y.priority.value) ∧
      ld.Pairwise (fun x y => y.priority.value ≤ x.priority.value) ∧
      (∀ pr : Priority, la.filter (fun t => t.priority == pr) =
        wTMsort.tasks_queue.elems.filter (fun t => t.priority == pr)) ∧
      (∀ pr : Priority, ld.filter (fun t => t.priority == pr) =
        wTMsort.tasks_queue.elems.filter (fun t => t.priority == pr)) :=
  list_priority_sorted_stable wTMsort (by decide)

theorem kill_list_witness :
    wTMlist.add wTaskN =
      (wTMlist,
        some (.attributeError "'list' object has no attribute 'popleft'")) :=
  kill_rebuilds_list_and_fifo_add_attribute_error.2.2 wTMlist wTaskN
    [wTaskA, wTaskH] rfl rfl rfl (by decide) (Or.inr (by decide))


end TM
